import Mathlib

/-!
Verification of the stats.rs core: bootstrap distribution construction
(`src/bootstrap.rs`) and kernel density estimation (`src/univariate/kde/mod.rs`).

The Rust code is shallowly embedded:

* `Distribution` carries the produced values together with the capacity of the
  backing vector.
* A `Resampler` instance (the external `Resamples` collaborator) is modelled as
  a stream of draws; because the parallel paths create a fresh instance per
  chunk, a whole family of instances is passed as `R : Nat → Nat → List T`
  where `R c i` is draw number `i` of instance number `c`.
* `parallel::divide` partitions the output buffer into contiguous chunks of
  `granularity` slots and runs the work closure once per chunk; the writes it
  performs are modelled explicitly as a list of `(index, value)` events
  (`parallelWrites`), and the filled buffer is the list of written values
  (`parallelFill`).
* Machine integers are `Nat` (no overflow is relevant to the claims), floats
  are `ℚ`, and the float-only primitives `sqrt`/`powf` of the external numeric
  layer are abstract function parameters.
-/

namespace StatsRs

/-- An owned vector of results together with the capacity of its allocation. -/
structure Distribution (A : Type) where
  data : List A
  capacity : Nat
deriving Repr, DecidableEq

/-- Fuel-driven model of `parallel::divide` on an `n`-slot buffer starting at
absolute offset `off`: the buffer is split into contiguous chunks of at most
`g` slots and the work closure runs once per chunk.  Chunk number `c` writes
value `f c j` into local slot `j`; the result is the list of `(index, value)`
write events in the order the slots appear in the buffer.  The fuel is an upper
bound on `n`; every step consumes at least one slot when `0 < g`. -/
def pwAux {A : Type} (g : Nat) : Nat → (Nat → Nat → A) → Nat → Nat → List (Nat × A)
  | 0, _, _, _ => []
  | fuel + 1, f, off, n =>
    if 0 < n ∧ 0 < g then
      ((List.range (min g n)).map fun j => (off + j, f 0 j))
        ++ pwAux g fuel (fun c j => f (c + 1) j) (off + g) (n - g)
    else []

/-- The write events of one `parallel::divide` call over an `n`-slot buffer. -/
def parallelWrites {A : Type} (g : Nat) (f : Nat → Nat → A) (n : Nat) : List (Nat × A) :=
  pwAux g n f 0 n

/-- The contents of the buffer after `parallel::divide` has filled it. -/
def parallelFill {A : Type} (g : Nat) (f : Nat → Nat → A) (n : Nat) : List A :=
  (parallelWrites g f n).map Prod.snd

theorem pwAux_map_fst {A : Type} (g : Nat) (hg : 0 < g) :
    ∀ (fuel : Nat) (f : Nat → Nat → A) (off n : Nat), n ≤ fuel →
      (pwAux g fuel f off n).map Prod.fst = List.range' off n := by
  intro fuel
  induction fuel with
  | zero =>
    intro f off n hn
    have : n = 0 := Nat.le_zero.mp hn
    subst this
    simp [pwAux]
  | succ fuel ih =>
    intro f off n hn
    by_cases h0 : 0 < n
    · rw [pwAux, if_pos ⟨h0, hg⟩, List.map_append, List.map_map,
        ih _ (off + g) (n - g) (by omega)]
      have hfst : (Prod.fst ∘ fun j => (off + j, f 0 j)) = fun j => off + j := rfl
      rw [hfst, ← List.range'_eq_map_range]
      rcases Nat.le_total n g with hng | hgn
      · rw [Nat.min_eq_right hng, Nat.sub_eq_zero_of_le hng]
        simp
      · rw [Nat.min_eq_left hgn]
        have h2 := List.range'_append off g (n - g) 1
        rw [Nat.one_mul] at h2
        rw [h2, Nat.add_comm (n - g) g, Nat.add_sub_cancel' hgn]
    · rw [pwAux, if_neg (by omega)]
      have : n = 0 := by omega
      subst this
      simp

theorem pwAux_length {A : Type} (g : Nat) (hg : 0 < g) (fuel : Nat) (f : Nat → Nat → A)
    (off n : Nat) (hn : n ≤ fuel) : (pwAux g fuel f off n).length = n := by
  have h := pwAux_map_fst g hg fuel f off n hn
  have := congrArg List.length h
  simpa using this

theorem pwAux_snd_getElem {A : Type} (g : Nat) (hg : 0 < g) :
    ∀ (fuel : Nat) (f : Nat → Nat → A) (off n i : Nat), n ≤ fuel → i < n →
      ((pwAux g fuel f off n).map Prod.snd)[i]? = some (f (i / g) (i % g)) := by
  intro fuel
  induction fuel with
  | zero => intro f off n i hn hi; omega
  | succ fuel ih =>
    intro f off n i hn hi
    rw [pwAux, if_pos ⟨by omega, hg⟩, List.map_append, List.map_map]
    have hfst : (Prod.snd ∘ fun j => (off + j, f 0 j)) = fun j => f 0 j := rfl
    rw [hfst]
    by_cases hik : i < min g n
    · rw [List.getElem?_append, if_pos (by simpa using hik)]
      have hig : i < g := lt_of_lt_of_le hik (Nat.min_le_left _ _)
      rw [List.getElem?_map, List.getElem?_range hik]
      simp [Nat.div_eq_of_lt hig, Nat.mod_eq_of_lt hig]
    · have hgn : g ≤ n ∧ g ≤ i := by
        rcases Nat.le_total g n with h | h
        · rw [Nat.min_eq_left h] at hik; omega
        · rw [Nat.min_eq_right h] at hik; omega
      have hgi : g ≤ i := hgn.2
      rw [List.getElem?_append_right (by simp [Nat.min_eq_left hgn.1]; omega)]
      have hlen : (List.map (fun j => f 0 j) (List.range (min g n))).length = g := by
        simp [Nat.min_eq_left hgn.1]
      rw [hlen, ih (fun c j => f (c + 1) j) (off + g) (n - g) (i - g) (by omega) (by omega)]
      have hdiv : (i - g) / g + 1 = i / g := by
        conv_rhs => rw [← Nat.sub_add_cancel hgi]
        rw [Nat.add_div_right _ hg]
      have hmod : (i - g) % g = i % g := by
        conv_rhs => rw [← Nat.sub_add_cancel hgi]
        rw [Nat.add_mod_right]
      rw [hdiv, hmod]

theorem parallelWrites_map_fst {A : Type} (g : Nat) (hg : 0 < g) (f : Nat → Nat → A)
    (n : Nat) : (parallelWrites g f n).map Prod.fst = List.range n := by
  rw [parallelWrites, pwAux_map_fst g hg n f 0 n (le_refl n), List.range_eq_range']

theorem parallelFill_length {A : Type} (g : Nat) (hg : 0 < g) (f : Nat → Nat → A)
    (n : Nat) : (parallelFill g f n).length = n := by
  rw [parallelFill, parallelWrites, List.length_map, pwAux_length g hg n f 0 n (le_refl n)]

theorem parallelFill_getElem {A : Type} (g : Nat) (hg : 0 < g) (f : Nat → Nat → A)
    (n i : Nat) (hi : i < n) : (parallelFill g f n)[i]? = some (f (i / g) (i % g)) := by
  rw [parallelFill, parallelWrites]
  exact pwAux_snd_getElem g hg n f 0 n i (le_refl n) hi

theorem parallelFill_mem {A : Type} (g : Nat) (hg : 0 < g) (f : Nat → Nat → A)
    (n : Nat) (x : A) (hx : x ∈ parallelFill g f n) :
    ∃ c j, j < n ∧ x = f c j := by
  rcases List.mem_iff_getElem?.mp hx with ⟨i, hi⟩
  have hlen : i < n := by
    have := List.getElem?_eq_some.mp hi
    rcases this with ⟨h, _⟩
    rwa [parallelFill_length g hg f n] at h
  rw [parallelFill_getElem g hg f n i hlen] at hi
  exact ⟨i / g, i % g, lt_of_le_of_lt (Nat.mod_le i g) hlen, (Option.some_inj.mp hi).symm⟩

/-! ## Single-sample bootstrap (`impl Bootstrap for [T]` in `bootstrap.rs`) -/

/-- Serial path of the single-sample bootstrap: one resampler instance draws
`nresamples` resamples in sequence and the statistic of each is collected. -/
def bootstrapSerialPath {T A : Type} (R : Nat → Nat → List T) (statistic : List T → A)
    (nresamples : Nat) : List A :=
  (List.range nresamples).map fun i => statistic (R 0 i)

/-- Parallel path of the single-sample bootstrap: the `nresamples`-slot buffer
is divided into chunks of `granularity = nresamples / ncpus + 1`; each chunk
gets a fresh resampler instance and writes one statistic result per slot. -/
def bootstrapParallelPath {T A : Type} (ncpus : Nat) (R : Nat → Nat → List T)
    (statistic : List T → A) (nresamples : Nat) : List A :=
  parallelFill (nresamples / ncpus + 1) (fun c j => statistic (R c j)) nresamples

/-- Model of `<[T] as Bootstrap>::bootstrap`: chooses the parallel path when more than
one cpu is available and `nresamples` exceeds the sample length. -/
def bootstrap {T A : Type} (ncpus : Nat) (R : Nat → Nat → List T) (statistic : List T → A)
    (sample : List T) (nresamples : Nat) : Distribution A :=
  if 1 < ncpus ∧ sample.length < nresamples then
    { data := bootstrapParallelPath ncpus R statistic nresamples, capacity := nresamples }
  else
    { data := bootstrapSerialPath R statistic nresamples, capacity := nresamples }

/-! ## Two-sample bootstrap (free `bootstrap` fn in `bootstrap.rs`) -/

/-- Model of `(nresamples as f64).sqrt().ceil() as uint`: the ceiling of the square
root of a natural number. -/
def ceilSqrt (n : Nat) : Nat :=
  if Nat.sqrt n * Nat.sqrt n = n then Nat.sqrt n else Nat.sqrt n + 1

/-- Serial path of the two-sample bootstrap: for each of `k` outer draws from
`first`, the inner loop takes `k` further (fresh) draws from `second`; draw
number `i * k + j` of the second resampler is used for slot `(i, j)`. -/
def bootstrap2SerialPath {A B C : Type} (R1 : Nat → Nat → List A) (R2 : Nat → Nat → List B)
    (statistic : List A → List B → C) (k : Nat) : List C :=
  ((List.range k).map fun i =>
    (List.range k).map fun j => statistic (R1 0 i) (R2 0 (i * k + j))).flatten

/-- Parallel path of the two-sample bootstrap: the `k * k`-slot buffer is
divided into chunks of `granularity = k / ncpus + 1`; each chunk gets fresh
resampler instances, takes a single draw from `first`, and one fresh draw from
`second` per slot. -/
def bootstrap2ParallelPath {A B C : Type} (ncpus : Nat) (R1 : Nat → Nat → List A)
    (R2 : Nat → Nat → List B) (statistic : List A → List B → C) (k : Nat) : List C :=
  parallelFill (k / ncpus + 1) (fun c j => statistic (R1 c 0) (R2 c j)) (k * k)

/-- The body of the two-sample `bootstrap` after the assertion has passed. -/
def bootstrap2Run {A B C : Type} (ncpus : Nat) (R1 : Nat → Nat → List A)
    (R2 : Nat → Nat → List B) (statistic : List A → List B → C)
    (first : List A) (second : List B) (nresamples : Nat) : Distribution C :=
  let k := ceilSqrt nresamples
  if 1 < ncpus ∧ first.length + second.length < k * k then
    { data := bootstrap2ParallelPath ncpus R1 R2 statistic k, capacity := k * k }
  else
    { data := bootstrap2SerialPath R1 R2 statistic k, capacity := k * k }

/-- The free two-sample `bootstrap` function; `assert!(nresamples > 0)` is a
fail-fast precondition, modelled as `none`. -/
def bootstrap2 {A B C : Type} (ncpus : Nat) (R1 : Nat → Nat → List A)
    (R2 : Nat → Nat → List B) (statistic : List A → List B → C)
    (first : List A) (second : List B) (nresamples : Nat) : Option (Distribution C) :=
  if nresamples = 0 then none
  else some (bootstrap2Run ncpus R1 R2 statistic first second nresamples)

theorem bootstrap2SerialPath_length {A B C : Type} (R1 : Nat → Nat → List A)
    (R2 : Nat → Nat → List B) (statistic : List A → List B → C) (k : Nat) :
    (bootstrap2SerialPath R1 R2 statistic k).length = k * k := by
  rw [bootstrap2SerialPath, List.length_flatten, List.map_map]
  have : (List.length ∘ fun i =>
      (List.range k).map fun j => statistic (R1 0 i) (R2 0 (i * k + j)))
      = Function.const Nat k := by
    funext i
    simp [Function.const]
  rw [this, List.map_const, List.sum_replicate]
  simp [Nat.smul_one_eq_cast]

theorem bootstrap2ParallelPath_length {A B C : Type} (ncpus : Nat) (R1 : Nat → Nat → List A)
    (R2 : Nat → Nat → List B) (statistic : List A → List B → C) (k : Nat) :
    (bootstrap2ParallelPath ncpus R1 R2 statistic k).length = k * k :=
  parallelFill_length _ (Nat.succ_pos _) _ _

theorem flatten_grid {C : Type} (gf : Nat → C) (a b : Nat) :
    ((List.range a).map fun i => (List.range b).map fun j => gf (i * b + j)).flatten
      = (List.range (a * b)).map gf := by
  induction a with
  | zero => simp
  | succ a ih =>
    rw [List.range_succ, List.map_append, List.flatten_append, ih]
    simp only [List.map_cons, List.map_nil, List.flatten_cons, List.flatten_nil,
      List.append_nil]
    rw [Nat.succ_mul, List.range_add, List.map_append, List.map_map]
    rfl

theorem bootstrap2SerialPath_eq {A B C : Type} (R1 : Nat → Nat → List A)
    (R2 : Nat → Nat → List B) (statistic : List A → List B → C) (k : Nat) (hk : 0 < k) :
    bootstrap2SerialPath R1 R2 statistic k
      = (List.range (k * k)).map fun m => statistic (R1 0 (m / k)) (R2 0 m) := by
  rw [bootstrap2SerialPath, ← flatten_grid (fun m => statistic (R1 0 (m / k)) (R2 0 m)) k k]
  congr 1
  apply List.map_congr_left
  intro i hi
  apply List.map_congr_left
  intro j hj
  have hj' : j < k := List.mem_range.mp hj
  have hdiv : (i * k + j) / k = i := by
    rw [Nat.mul_comm i k, Nat.mul_add_div hk, Nat.div_eq_of_lt hj', Nat.add_zero]
  rw [hdiv]

/-- Claim C6: for every `nresamples > 0`, the single-sample bootstrap returns a
`Distribution` whose length equals `nresamples` exactly and whose capacity
equals its length, on both the serial and the parallel path. -/
theorem single_sample_exact_sizing {T A : Type} (ncpus : Nat) (R : Nat → Nat → List T)
    (statistic : List T → A) (sample : List T) (nresamples : Nat) (hn : 0 < nresamples) :
    (bootstrap ncpus R statistic sample nresamples).data.length = nresamples
  ∧ (bootstrap ncpus R statistic sample nresamples).capacity
      = (bootstrap ncpus R statistic sample nresamples).data.length
  ∧ (bootstrapSerialPath R statistic nresamples).length = nresamples
  ∧ (bootstrapParallelPath ncpus R statistic nresamples).length = nresamples := by
  have hs : (bootstrapSerialPath R statistic nresamples).length = nresamples := by
    simp [bootstrapSerialPath]
  have hp : (bootstrapParallelPath ncpus R statistic nresamples).length = nresamples :=
    parallelFill_length _ (Nat.succ_pos _) _ _
  have hb : (bootstrap ncpus R statistic sample nresamples).data.length = nresamples := by
    by_cases h : 1 < ncpus ∧ sample.length < nresamples
    · rw [bootstrap, if_pos h]; exact hp
    · rw [bootstrap, if_neg h]; exact hs
  have hc : (bootstrap ncpus R statistic sample nresamples).capacity = nresamples := by
    by_cases h : 1 < ncpus ∧ sample.length < nresamples
    · rw [bootstrap, if_pos h]
    · rw [bootstrap, if_neg h]
  exact ⟨hb, by rw [hb, hc], hs, hp⟩

/-- Witness for C6 at a concrete input. -/
theorem single_sample_exact_sizing_witness :
    0 < 5 ∧ (bootstrap 1 (fun _ _ => ([] : List Nat)) (fun _ => (0 : Nat)) [] 5).data.length = 5 :=
  ⟨by decide,
    (single_sample_exact_sizing 1 (fun _ _ => ([] : List Nat)) (fun _ => (0 : Nat)) [] 5
      (by decide)).1⟩

/-- Claim C7: the two-sample bootstrap fails fast (precondition violation) if
and only if `nresamples = 0`; for every `nresamples > 0` it completes without
this failure. -/
theorem two_sample_fails_iff_zero {A B C : Type} (ncpus : Nat) (R1 : Nat → Nat → List A)
    (R2 : Nat → Nat → List B) (statistic : List A → List B → C)
    (first : List A) (second : List B) (nresamples : Nat) :
    bootstrap2 ncpus R1 R2 statistic first second nresamples = none ↔ nresamples = 0 := by
  by_cases h : nresamples = 0 <;> simp [bootstrap2, h]

/-- Claim C10: single-sample bootstrap with `nresamples = 0` does not fail: the
size heuristic selects the serial path (0 is never greater than the sample
length) and an empty `Distribution` of length 0 is returned. -/
theorem single_sample_zero_resamples {T A : Type} (ncpus : Nat) (R : Nat → Nat → List T)
    (statistic : List T → A) (sample : List T) :
    bootstrap ncpus R statistic sample 0
      = { data := bootstrapSerialPath R statistic 0, capacity := 0 }
  ∧ bootstrapSerialPath R statistic 0 = ([] : List A) := by
  constructor
  · rw [bootstrap, if_neg (by omega)]
  · simp [bootstrapSerialPath]

/-- Claim C1: for every `nresamples > 0`, the two-sample bootstrap returns a
`Distribution` whose length is exactly `k * k` with `k = ceilSqrt nresamples`,
on both the serial and the parallel path. -/
theorem two_sample_rounded_length {A B C : Type} (ncpus : Nat) (R1 : Nat → Nat → List A)
    (R2 : Nat → Nat → List B) (statistic : List A → List B → C)
    (first : List A) (second : List B) (nresamples : Nat) (hn : 0 < nresamples) :
    bootstrap2 ncpus R1 R2 statistic first second nresamples
      = some (bootstrap2Run ncpus R1 R2 statistic first second nresamples)
  ∧ (bootstrap2Run ncpus R1 R2 statistic first second nresamples).data.length
      = ceilSqrt nresamples * ceilSqrt nresamples
  ∧ (bootstrap2SerialPath R1 R2 statistic (ceilSqrt nresamples)).length
      = ceilSqrt nresamples * ceilSqrt nresamples
  ∧ (bootstrap2ParallelPath ncpus R1 R2 statistic (ceilSqrt nresamples)).length
      = ceilSqrt nresamples * ceilSqrt nresamples := by
  refine ⟨by rw [bootstrap2, if_neg (by omega)], ?_,
    bootstrap2SerialPath_length R1 R2 statistic _,
    bootstrap2ParallelPath_length ncpus R1 R2 statistic _⟩
  by_cases h : 1 < ncpus ∧
      first.length + second.length < ceilSqrt nresamples * ceilSqrt nresamples
  · simp only [bootstrap2Run, if_pos h]
    exact bootstrap2ParallelPath_length ncpus R1 R2 statistic _
  · simp only [bootstrap2Run, if_neg h]
    exact bootstrap2SerialPath_length R1 R2 statistic _

/-- Witness for C1: `nresamples = 10` yields a length-16 distribution. -/
theorem two_sample_rounded_length_witness :
    ((bootstrap2Run 1 (fun _ _ => ([] : List Nat)) (fun _ _ => ([] : List Nat))
        (fun _ _ => (0 : Nat)) [] [] 10).data.length
      = ceilSqrt 10 * ceilSqrt 10)
  ∧ ceilSqrt 10 * ceilSqrt 10 = 16 :=
  ⟨(two_sample_rounded_length 1 (fun _ _ => ([] : List Nat)) (fun _ _ => ([] : List Nat))
      (fun _ _ => (0 : Nat)) [] [] 10 (by decide)).2.1, by norm_num [ceilSqrt]⟩

theorem ceilSqrt_pos (n : Nat) (hn : 0 < n) : 0 < ceilSqrt n := by
  rw [ceilSqrt]
  by_cases h : Nat.sqrt n * Nat.sqrt n = n
  · rw [if_pos h]
    rcases Nat.eq_zero_or_pos (Nat.sqrt n) with h0 | h0
    · rw [h0] at h; omega
    · exact h0
  · rw [if_neg h]; omega

/-- Claim C2 counterexample: with `nresamples = 2` (so `k = 2`), a resampler for
`second` whose draws are the distinct singletons `[0], [1], [2], [3]`, and the
statistic that returns the head of the second resample, the serial two-sample
bootstrap (taken by `bootstrap2Run` with one cpu) produces `[0, 1, 2, 3]`; no
choice of `k = 2` draws from `first` and `k = 2` draws from `second` makes slot
`(i, j)` equal to `statistic` of the `i`-th first draw and the `j`-th second
draw, because slots `(0,0)` and `(1,0)` would then coincide. -/
theorem two_sample_grid_counterexample :
    ((bootstrap2Run 1 (fun _ _ => ([] : List Nat)) (fun _ i => ([i] : List Nat))
        (fun _ s => s.headD 0) [] [] 2).data
      = bootstrap2SerialPath (fun _ _ => ([] : List Nat)) (fun _ i => ([i] : List Nat))
          (fun _ s => s.headD 0) 2)
  ∧ ¬ ∃ a b : Fin 2 → List Nat, ∀ i j : Fin 2,
      (bootstrap2SerialPath (fun _ _ => ([] : List Nat)) (fun _ i => ([i] : List Nat))
        (fun _ s => s.headD 0) 2)[i.val * 2 + j.val]? = some ((b j).headD 0) := by
  have hk : ceilSqrt 2 = 2 := by norm_num [ceilSqrt]
  constructor
  · simp [bootstrap2Run, hk]
  · rintro ⟨a, b, h⟩
    have e : bootstrap2SerialPath (fun _ _ => ([] : List Nat)) (fun _ i => ([i] : List Nat))
        (fun _ s => s.headD 0) 2 = [0, 1, 2, 3] := by decide
    have h1 := h 0 0
    have h2 := h 1 0
    rw [e] at h1 h2
    simp at h1 h2
    omega

/-- Claim C2 (amended): the two-sample paths are row-structured but draw a
fresh resample of `second` for every slot.  Serial: slot `i * k + j` holds
`statistic` of the `i`-th draw from `first` and draw number `i * k + j` from
`second`.  Parallel: slot `i` of the `k * k` buffer lies in chunk `i / g`
(`g = k / ncpus + 1`), which pairs its single draw from `first` with fresh
draw number `i % g` from `second`. -/
theorem two_sample_row_structure {A B C : Type} (ncpus : Nat) (R1 : Nat → Nat → List A)
    (R2 : Nat → Nat → List B) (statistic : List A → List B → C)
    (nresamples : Nat) (hn : 0 < nresamples) :
    bootstrap2SerialPath R1 R2 statistic (ceilSqrt nresamples)
      = (List.range (ceilSqrt nresamples * ceilSqrt nresamples)).map
          (fun m => statistic (R1 0 (m / ceilSqrt nresamples)) (R2 0 m))
  ∧ ∀ i, i < ceilSqrt nresamples * ceilSqrt nresamples →
      (bootstrap2ParallelPath ncpus R1 R2 statistic (ceilSqrt nresamples))[i]?
        = some (statistic
            (R1 (i / (ceilSqrt nresamples / ncpus + 1)) 0)
            (R2 (i / (ceilSqrt nresamples / ncpus + 1))
                (i % (ceilSqrt nresamples / ncpus + 1)))) := by
  refine ⟨bootstrap2SerialPath_eq R1 R2 statistic _ (ceilSqrt_pos nresamples hn), ?_⟩
  intro i hi
  exact parallelFill_getElem _ (Nat.succ_pos _) _ _ i hi

/-- Witness for C2 (amended) at `nresamples = 2`. -/
theorem two_sample_row_structure_witness :
    bootstrap2SerialPath (fun _ _ => ([] : List Nat)) (fun _ i => ([i] : List Nat))
        (fun _ s => s.headD 0) (ceilSqrt 2)
      = (List.range (ceilSqrt 2 * ceilSqrt 2)).map (fun m => ([m] : List Nat).headD 0) :=
  (two_sample_row_structure 1 (fun _ _ => ([] : List Nat)) (fun _ i => ([i] : List Nat))
    (fun _ s => s.headD 0) 2 (by decide)).1

/-- Claim C8 counterexample: with a deterministic resampler (instance-independent
draw sequence `[0], [1], [2], ...`) and the head statistic, the single-sample
parallel path over 3 resamples on 2 cpus yields the value set `{0, 1}` while the
serial path yields `{0, 1, 2}`; similarly the two-sample parallel and serial
paths at `nresamples = 2` produce `[0, 1, 0, 1]` and `[0, 1, 2, 3]`. -/
theorem serial_parallel_equivalence_counterexample :
    ((bootstrap 2 (fun _ i => ([i] : List Nat)) (fun s => s.headD 0) [] 3).data.toFinset
      ≠ (bootstrap 1 (fun _ i => ([i] : List Nat)) (fun s => s.headD 0) [] 3).data.toFinset)
  ∧ (bootstrap2Run 2 (fun _ _ => ([] : List Nat)) (fun _ i => ([i] : List Nat))
        (fun _ s => s.headD 0) [] [] 2).data
      ≠ (bootstrap2Run 1 (fun _ _ => ([] : List Nat)) (fun _ i => ([i] : List Nat))
        (fun _ s => s.headD 0) [] [] 2).data := by
  have hk : ceilSqrt 2 = 2 := by norm_num [ceilSqrt]
  constructor
  · decide
  · have e1 : (bootstrap2Run 2 (fun _ _ => ([] : List Nat)) (fun _ i => ([i] : List Nat))
        (fun _ s => s.headD 0) [] [] 2).data
        = bootstrap2ParallelPath 2 (fun _ _ => ([] : List Nat)) (fun _ i => ([i] : List Nat))
            (fun _ s => s.headD 0) 2 := by
      simp [bootstrap2Run, hk]
    have e2 : (bootstrap2Run 1 (fun _ _ => ([] : List Nat)) (fun _ i => ([i] : List Nat))
        (fun _ s => s.headD 0) [] [] 2).data
        = bootstrap2SerialPath (fun _ _ => ([] : List Nat)) (fun _ i => ([i] : List Nat))
            (fun _ s => s.headD 0) 2 := by
      simp [bootstrap2Run, hk]
    rw [e1, e2]
    decide

/-- Claim C8 (amended): for a deterministic resampler (every fresh instance
yields the same draw sequence), every value of the single-sample parallel path
also occurs on the serial path (each parallel slot holds the statistic of a
draw whose index is below `nresamples`), but the two sets need not be equal;
for the two-sample bootstrap the parallel path pairs the first draw of `first`
with draw `i % g` of `second` at slot `i`, which need not match the serial
order. -/
theorem serial_parallel_relation {T A B C D : Type} (ncpus : Nat) (R : Nat → Nat → List T)
    (statistic : List T → A) (nresamples : Nat) (R1 : Nat → Nat → List B)
    (R2 : Nat → Nat → List C) (statistic2 : List B → List C → D) (k : Nat)
    (hdet : ∀ c, R c = R 0) (hdet1 : ∀ c, R1 c = R1 0) (hdet2 : ∀ c, R2 c = R2 0) :
    (∀ x ∈ bootstrapParallelPath ncpus R statistic nresamples,
        x ∈ bootstrapSerialPath R statistic nresamples)
  ∧ ∀ i, i < k * k →
      (bootstrap2ParallelPath ncpus R1 R2 statistic2 k)[i]?
        = some (statistic2 (R1 0 0) (R2 0 (i % (k / ncpus + 1)))) := by
  constructor
  · intro x hx
    rcases parallelFill_mem _ (Nat.succ_pos _) _ _ x hx with ⟨c, j, hj, hx'⟩
    rw [hx', hdet c]
    exact List.mem_map.mpr ⟨j, List.mem_range.mpr hj, rfl⟩
  · intro i hi
    unfold bootstrap2ParallelPath
    rw [parallelFill_getElem _ (Nat.succ_pos _) _ _ i hi,
      hdet1 (i / (k / ncpus + 1)), hdet2 (i / (k / ncpus + 1))]

/-- Witness for C8 (amended) at a concrete deterministic resampler. -/
theorem serial_parallel_relation_witness :
    (bootstrap2ParallelPath 2 (fun _ _ => ([] : List Nat)) (fun _ i => ([i] : List Nat))
        (fun _ s => s.headD 0) 1)[0]? = some 0 :=
  (serial_parallel_relation 2 (fun _ i => ([i] : List Nat)) (fun s => s.headD 0) 3
    (fun _ _ => ([] : List Nat)) (fun _ i => ([i] : List Nat)) (fun _ s => s.headD 0) 1
    (fun _ => rfl) (fun _ => rfl) (fun _ => rfl)).2 0 (by decide)

/-- Claim C9: on the parallel single-sample path the write events of the
preallocated buffer cover every slot index exactly once and in order, the
returned data is exactly the written values, and consequently every entry lies
in any set `S` containing all outputs of the statistic. -/
theorem parallel_slots_written_once {T A : Type} (S : Set A) (ncpus : Nat)
    (R : Nat → Nat → List T) (statistic : List T → A) (sample : List T) (n : Nat)
    (h1 : 1 < ncpus) (h2 : sample.length < n) (hS : ∀ s, statistic s ∈ S) :
    (parallelWrites (n / ncpus + 1) (fun c j => statistic (R c j)) n).map Prod.fst
      = List.range n
  ∧ (bootstrap ncpus R statistic sample n).data
      = (parallelWrites (n / ncpus + 1) (fun c j => statistic (R c j)) n).map Prod.snd
  ∧ ∀ x ∈ (bootstrap ncpus R statistic sample n).data, x ∈ S := by
  have hdata : (bootstrap ncpus R statistic sample n).data
      = bootstrapParallelPath ncpus R statistic n := by
    rw [bootstrap, if_pos ⟨h1, h2⟩]
  refine ⟨parallelWrites_map_fst _ (Nat.succ_pos _) _ n, by rw [hdata]; rfl, ?_⟩
  intro x hx
  rw [hdata] at hx
  rcases parallelFill_mem _ (Nat.succ_pos _) _ _ x hx with ⟨c, j, _, hx'⟩
  rw [hx']
  exact hS _

/-- Witness for C9 on 2 cpus with 3 resamples. -/
theorem parallel_slots_written_once_witness :
    (parallelWrites (3 / 2 + 1) (fun _ _ => (1 : Nat)) 3).map Prod.fst = List.range 3 :=
  (parallel_slots_written_once {m : Nat | m ≤ 1} 2 (fun _ _ => ([] : List Nat))
    (fun _ => 1) [] 3 (by decide) (by decide) (fun _ => Nat.le_refl 1)).1

/-! ## Kernel density estimation (`univariate/kde/mod.rs`) -/

/-- A univariate kernel density estimator: resolved bandwidth, kernel function
and borrowed sample.  Floats are modelled as `ℚ`. -/
structure Kde where
  bandwidth : ℚ
  kernel : ℚ → ℚ
  sample : List ℚ

/-- Elementwise vector addition of the SIMD abstraction. -/
def vAdd (u v : List ℚ) : List ℚ := List.zipWith (· + ·) u v

/-- Elementwise vector subtraction of the SIMD abstraction. -/
def vSub (u v : List ℚ) : List ℚ := List.zipWith (· - ·) u v

/-- Elementwise vector division of the SIMD abstraction. -/
def vDiv (u v : List ℚ) : List ℚ := List.zipWith (· / ·) u v

/-- Model of `A::Vector::from_elem` and `zeroed`: a vector of `w` equal lanes. -/
def fromElem (w : Nat) (x : ℚ) : List ℚ := List.replicate w x

/-- Splits a slice into maximal complete chunks of `w` lanes plus a scalar
remainder (fuel-driven; the fuel is an upper bound on the list length). -/
def chunksExactAux : Nat → Nat → List ℚ → List (List ℚ) × List ℚ
  | 0, _, l => ([], l)
  | fuel + 1, w, l =>
    if 0 < w ∧ w ≤ l.length then
      let p := chunksExactAux fuel w (l.drop w)
      (l.take w :: p.1, p.2)
    else ([], l)

/-- Model of `A::Vector::cast(slice)`: an alignment-dependent scalar head of `headLen`
elements, a body of complete `w`-lane vectors, and a scalar tail. -/
def simdCast (w headLen : Nat) (slice : List ℚ) : List ℚ × List (List ℚ) × List ℚ :=
  let head := slice.take headLen
  let rest := slice.drop headLen
  let p := chunksExactAux rest.length w rest
  (head, p.1, p.2)

/-- Model of `Kde::call` (the `Fn<(A,)>` impl): SIMD body accumulated lane-wise then
horizontally summed, scalar head and tail chained onto the same accumulator,
and a single division by `h` and by `n` at the end. -/
def Kde.call (w headLen : Nat) (self : Kde) (x : ℚ) : ℚ :=
  let slice := self.sample
  let h := self.bandwidth
  let n : ℚ := (slice.length : ℚ)
  let x_ := fromElem w x
  let h_ := fromElem w h
  let hbt := simdCast w headLen slice
  let sum1 := (hbt.2.1.foldl
    (fun acc x_i => vAdd acc ((vDiv (vSub x_ x_i) h_).map self.kernel))
    (fromElem w 0)).sum
  let sum2 := (hbt.1 ++ hbt.2.2).foldl (fun acc x_i => acc + self.kernel ((x - x_i) / h)) sum1
  sum2 / h / n

theorem chunksExactAux_flatten :
    ∀ (fuel w : Nat) (l : List ℚ),
      (chunksExactAux fuel w l).1.flatten ++ (chunksExactAux fuel w l).2 = l := by
  intro fuel
  induction fuel with
  | zero => intro w l; simp [chunksExactAux]
  | succ fuel ih =>
    intro w l
    by_cases hc : 0 < w ∧ w ≤ l.length
    · simp only [chunksExactAux, if_pos hc, List.flatten_cons, List.append_assoc]
      rw [ih w (l.drop w), List.take_append_drop]
    · simp [chunksExactAux, if_neg hc]

theorem chunksExactAux_lengths :
    ∀ (fuel w : Nat) (l : List ℚ), ∀ c ∈ (chunksExactAux fuel w l).1, c.length = w := by
  intro fuel
  induction fuel with
  | zero => intro w l c hc; simp [chunksExactAux] at hc
  | succ fuel ih =>
    intro w l c hc
    by_cases hcond : 0 < w ∧ w ≤ l.length
    · simp only [chunksExactAux, if_pos hcond, List.mem_cons] at hc
      rcases hc with hc | hc
      · rw [hc, List.length_take]
        omega
      · exact ih w (l.drop w) c hc
    · simp [chunksExactAux, if_neg hcond] at hc

theorem vec_term (x h : ℚ) (kern : ℚ → ℚ) :
    ∀ (c : List ℚ),
      (vDiv (vSub (fromElem c.length x) c) (fromElem c.length h)).map kern
        = c.map fun e => kern ((x - e) / h) := by
  intro c
  induction c with
  | nil => rfl
  | cons e c ih =>
    simp only [fromElem, List.length_cons, List.replicate_succ] at ih ⊢
    simp only [vSub, vDiv, List.zipWith_cons_cons, List.map_cons] at ih ⊢
    rw [← ih]

theorem vAdd_sum : ∀ (u v : List ℚ), u.length = v.length → (vAdd u v).sum = u.sum + v.sum := by
  intro u
  induction u with
  | nil =>
    intro v hv
    have : v = [] := List.eq_nil_of_length_eq_zero hv.symm
    simp [this, vAdd]
  | cons a u ih =>
    intro v hv
    match v with
    | [] => simp at hv
    | b :: v =>
      simp only [vAdd, List.zipWith_cons_cons, List.sum_cons] at ih ⊢
      rw [ih v (by simpa using hv)]
      ring

theorem body_fold_sum (x h : ℚ) (kern : ℚ → ℚ) (w : Nat) :
    ∀ (body : List (List ℚ)) (acc : List ℚ), acc.length = w → (∀ c ∈ body, c.length = w) →
      (body.foldl (fun a x_i => vAdd a ((vDiv (vSub (fromElem w x) x_i) (fromElem w h)).map kern))
        acc).sum
        = acc.sum + (body.flatten.map fun e => kern ((x - e) / h)).sum := by
  intro body
  induction body with
  | nil => intro acc _ _; simp
  | cons c body ih =>
    intro acc hacc hlens
    have hc : c.length = w := hlens c (List.mem_cons_self c body)
    have hterm : ((vDiv (vSub (fromElem w x) c) (fromElem w h)).map kern)
        = c.map fun e => kern ((x - e) / h) := by
      rw [← hc]
      exact vec_term x h kern c
    have hlen' : (vAdd acc ((vDiv (vSub (fromElem w x) c) (fromElem w h)).map kern)).length = w := by
      rw [hterm, vAdd, List.length_zipWith, List.length_map, hacc, hc, Nat.min_self]
    simp only [List.foldl_cons]
    rw [ih _ hlen' (fun d hd => hlens d (List.mem_cons_of_mem c hd)),
      vAdd_sum acc _ (by rw [hterm, List.length_map, hacc, hc]), hterm]
    simp only [List.flatten_cons, List.map_append, List.sum_append]
    ring

theorem scalar_fold_sum (f : ℚ → ℚ) :
    ∀ (l : List ℚ) (s : ℚ), l.foldl (fun a e => a + f e) s = s + (l.map f).sum := by
  intro l
  induction l with
  | nil => intro s; simp
  | cons e l ih =>
    intro s
    simp only [List.foldl_cons, List.map_cons, List.sum_cons]
    rw [ih]
    ring

/-- Claim C3: for every `Kde` with `n` sample points and bandwidth `h`, and for
every SIMD lane width `w` and alignment split `headLen`, evaluating the Kde at
a scalar query point `x` returns `(1 / (n * h)) * Σ_i kernel((x - x_i) / h)`:
each sample point is summed exactly once and the divisions by `h` and `n`
happen once on the final sum. -/
theorem kde_call_eval (w headLen : Nat) (kde : Kde) (x : ℚ) :
    Kde.call w headLen kde x
      = (1 / ((kde.sample.length : ℚ) * kde.bandwidth))
          * (kde.sample.map fun x_i => kde.kernel ((x - x_i) / kde.bandwidth)).sum := by
  have hlens := chunksExactAux_lengths (kde.sample.drop headLen).length w (kde.sample.drop headLen)
  have hflat := chunksExactAux_flatten (kde.sample.drop headLen).length w (kde.sample.drop headLen)
  simp only [Kde.call, simdCast]
  rw [body_fold_sum x kde.bandwidth kde.kernel w _ (fromElem w 0)
    (by simp [fromElem]) hlens]
  rw [scalar_fold_sum (fun e => kde.kernel ((x - e) / kde.bandwidth))]
  have hzero : (fromElem w 0).sum = 0 := by simp [fromElem]
  rw [hzero, List.map_append, List.sum_append]
  have hsample : (kde.sample.map fun x_i => kde.kernel ((x - x_i) / kde.bandwidth)).sum
      = ((kde.sample.take headLen).map fun x_i => kde.kernel ((x - x_i) / kde.bandwidth)).sum
        + ((((chunksExactAux (kde.sample.drop headLen).length w
              (kde.sample.drop headLen)).1.flatten.map
                fun x_i => kde.kernel ((x - x_i) / kde.bandwidth)).sum)
          + (((chunksExactAux (kde.sample.drop headLen).length w
              (kde.sample.drop headLen)).2.map
                fun x_i => kde.kernel ((x - x_i) / kde.bandwidth)).sum)) := by
    conv_lhs => rw [← List.take_append_drop headLen kde.sample, ← hflat]
    simp only [List.map_append, List.sum_append]
  rw [hsample]
  ring

/-- Chunking of a slice as `chunks_mut(granularity)`: contiguous chunks of at
most `w` elements, the last one possibly shorter (fuel-driven). -/
def chunksAux {α : Type} : Nat → Nat → List α → List (List α)
  | 0, _, _ => []
  | _ + 1, _, [] => []
  | fuel + 1, w, a :: t => (a :: t).take w :: chunksAux fuel w ((a :: t).drop w)

/-- All chunks of `l` of size `w` (last one possibly shorter). -/
def chunksOf {α : Type} (w : Nat) (l : List α) : List (List α) := chunksAux l.length w l

theorem chunksAux_flatten {α : Type} :
    ∀ (fuel w : Nat) (l : List α), 0 < w → l.length ≤ fuel →
      (chunksAux fuel w l).flatten = l := by
  intro fuel
  induction fuel with
  | zero =>
    intro w l hw hl
    have : l = [] := List.eq_nil_of_length_eq_zero (Nat.le_zero.mp hl)
    simp [this, chunksAux]
  | succ fuel ih =>
    intro w l hw hl
    match l with
    | [] => simp [chunksAux]
    | a :: t =>
      simp only [chunksAux, List.flatten_cons]
      rw [ih w ((a :: t).drop w) hw
        (by simp only [List.length_drop, List.length_cons]
            simp only [List.length_cons] at hl
            omega),
        List.take_append_drop]

theorem chunksOf_flatten {α : Type} (w : Nat) (l : List α) (hw : 0 < w) :
    (chunksOf w l).flatten = l :=
  chunksAux_flatten l.length w l hw (le_refl _)

/-- Model of `Kde::map`: parallel path splits `ys` into chunks of
`granularity = n / ncpus + 1` slots, each worker writing
`ys[offset + i] = kde(xs[offset + i])` for its own chunk; serial path maps in
order. -/
def Kde.map (ncpus w headLen : Nat) (self : Kde) (xs : List ℚ) : List ℚ :=
  let n := xs.length
  if 1 < ncpus ∧ ncpus < n then
    let granularity := n / ncpus + 1
    ((chunksOf granularity xs).map fun c => c.map (Kde.call w headLen self)).flatten
  else
    xs.map (Kde.call w headLen self)

/-- Claim C4: for every `Kde` and every ordered sequence of query points `xs`,
`Kde::map` returns a sequence of the same length whose `i`-th entry is the
evaluation of the `i`-th query point, preserving input order exactly, on both
the serial and the parallel (chunked) path. -/
theorem kde_map_eval (ncpus w headLen : Nat) (kde : Kde) (xs : List ℚ) :
    Kde.map ncpus w headLen kde xs = xs.map (Kde.call w headLen kde)
  ∧ (Kde.map ncpus w headLen kde xs).length = xs.length
  ∧ ∀ i, i < xs.length →
      (Kde.map ncpus w headLen kde xs)[i]? = Option.map (Kde.call w headLen kde) xs[i]? := by
  have hmain : Kde.map ncpus w headLen kde xs = xs.map (Kde.call w headLen kde) := by
    by_cases hc : 1 < ncpus ∧ ncpus < xs.length
    · simp only [Kde.map, if_pos hc]
      rw [← List.map_flatten, chunksOf_flatten _ _ (Nat.succ_pos _)]
    · simp only [Kde.map, if_neg hc]
  refine ⟨hmain, by rw [hmain, List.length_map], ?_⟩
  intro i hi
  rw [hmain, List.getElem?_map]

/-- Modelled from the spec: the implementation of `Sample::std_dev(None)` is
not under `src/`; per the spec it is the sample (not
population) standard deviation, i.e. the square root of the sum of squared
deviations from the mean divided by `n - 1`.  The float square root is the
abstract parameter `sqrtF`. -/
def std_dev (sqrtF : ℚ → ℚ) (sample : List ℚ) : ℚ :=
  let n : ℚ := (sample.length : ℚ)
  let mean := sample.sum / n
  sqrtF ((sample.map fun x_i => (x_i - mean) ^ 2).sum / (n - 1))

/-- Method to estimate the bandwidth. -/
inductive Bandwidth where
  /-- Use this value as the bandwidth. -/
  | Manual (bw : ℚ)
  /-- Use Silverman's rule of thumb to estimate the bandwidth from the sample. -/
  | Silverman

/-- Model of `Bandwidth::estimate`; the float power function of the external numeric
layer is the abstract parameter `powf`. -/
def Bandwidth.estimate (powf : ℚ → ℚ → ℚ) (sqrtF : ℚ → ℚ) (self : Bandwidth)
    (sample : List ℚ) : ℚ :=
  match self with
  | Bandwidth.Silverman =>
    let factor : ℚ := 4 / 3
    let exponent : ℚ := 1 / 5
    let n : ℚ := (sample.length : ℚ)
    let sigma := std_dev sqrtF sample
    sigma * powf (factor / n) exponent
  | Bandwidth.Manual bw => bw

/-- Model of `Kde::new`: resolves the bandwidth eagerly at construction. -/
def Kde.new (powf : ℚ → ℚ → ℚ) (sqrtF : ℚ → ℚ) (sample : List ℚ) (k : ℚ → ℚ)
    (bw : Bandwidth) : Kde :=
  { bandwidth := bw.estimate powf sqrtF sample, kernel := k, sample := sample }

/-- Claim C5: `Bandwidth::estimate` with `Manual bw` returns `bw` unchanged,
with `Silverman` returns `std_dev(sample) * powf (4 / (3 * n)) (1 / 5)` where
`n` is the sample length and `std_dev` is the sample standard deviation; the
value is computed once at `Kde::new` and `Kde::bandwidth` returns it
unchanged. -/
theorem bandwidth_estimate_eval (powf : ℚ → ℚ → ℚ) (sqrtF : ℚ → ℚ) (b : ℚ)
    (sample : List ℚ) (k : ℚ → ℚ) (bw : Bandwidth) :
    Bandwidth.estimate powf sqrtF (Bandwidth.Manual b) sample = b
  ∧ Bandwidth.estimate powf sqrtF Bandwidth.Silverman sample
      = std_dev sqrtF sample * powf (4 / (3 * (sample.length : ℚ))) (1 / 5)
  ∧ (Kde.new powf sqrtF sample k bw).bandwidth
      = Bandwidth.estimate powf sqrtF bw sample := by
  refine ⟨rfl, ?_, rfl⟩
  simp only [Bandwidth.estimate]
  rw [div_div]

/-- Witness for C4 at a concrete Kde and query list. -/
theorem kde_map_eval_witness :
    (Kde.map 3 4 0 { bandwidth := 1, kernel := id, sample := [] } [5, 7])[0]?
      = Option.map (Kde.call 4 0 { bandwidth := 1, kernel := id, sample := [] })
          (([5, 7] : List ℚ))[0]? :=
  (kde_map_eval 3 4 0 { bandwidth := 1, kernel := id, sample := [] } [5, 7]).2.2 0 (by decide)
